import Mathlib

/-!
Verification of the Debug-Arena content-generation scripts.

The scripts read a hand-authored text corpus of quiz entries, segment it
into per-record spans, extract labeled fields from each span, and emit
escaped string literals.  Text is modelled as `List Char` (one `Line` per
source line); documents are `List Line`.  Every definition below is a
direct translation of the corresponding Python code in the repository
(file and line references are given at each definition), except for the
few definitions explicitly marked as modelled from the specification.
-/

/-- A piece of text: Python `str` is modelled as a list of characters. -/
abbrev Line := List Char

/-- Convert a Lean string literal to the `List Char` model. -/
def s2l (s : String) : Line := s.data

/-- Python whitespace for `str.strip` / `str.rstrip` (ASCII subset:
space, tab, newline, carriage return, vertical tab, form feed). -/
def isPyWS (c : Char) : Bool :=
  c = ' ' || c = '\t' || c = '\n' || c = '\r' || c = '\x0b' || c = '\x0c'

/-- Python `str.lstrip()`. -/
def pyLstrip (l : Line) : Line := l.dropWhile isPyWS

/-- Python `str.rstrip()`. -/
def pyRstrip (l : Line) : Line := (l.reverse.dropWhile isPyWS).reverse

/-- Python `str.strip()`. -/
def pyStrip (l : Line) : Line := pyRstrip (pyLstrip l)

/-- Python `s.startswith(p)`: does `s` start with `p`? -/
def startsW : Line → Line → Bool
  | [], _ => true
  | _ :: _, [] => false
  | a :: ps, b :: ss => a = b && startsW ps ss

/-- Python newline-join of a list of lines. -/
def joinNL : List Line → Line
  | [] => []
  | [l] => l
  | l :: ls => l ++ '\n' :: joinNL ls

/-- Python `s.split('\n')`. -/
def splitNL : Line → List Line
  | [] => [[]]
  | c :: rest =>
    if c = '\n' then [] :: splitNL rest
    else
      match splitNL rest with
      | l :: ls => (c :: l) :: ls
      | [] => [[c]]

/-- Does `hay` contain `needle` as a contiguous segment? -/
def containsSeg : Line → Line → Bool
  | n, [] => startsW n []
  | n, c :: t => startsW n (c :: t) || containsSeg n t

/-- Decimal digits of a natural number, as printed by Python f-strings. -/
def natLine (n : Nat) : Line := Nat.toDigits 10 n

/-! ## Escaping (src/parse_questions.py lines 94-95, src/generate_puzzles.py
lines 133-134, src/generate_questions_l2.py lines 767-768)

Python `str.replace(old, new)` where `old` is a single character is a
per-character global substitution. -/

/-- Python `s.replace(c, r)` for a single-character pattern `c`. -/
def pyReplaceChar (c : Char) (r : Line) : Line → Line
  | [] => []
  | a :: as => (if a = c then r else [a]) ++ pyReplaceChar c r as

/-- The escaping function of the scripts:
`s.replace('\\', '\\\\').replace('"', '\\"').replace('\n', '\\n')`
(backslashes first, then double quotes, then newlines). -/
def escape_swift_string (s : Line) : Line :=
  pyReplaceChar '\n' ['\\', 'n']
    (pyReplaceChar '\"' ['\\', '\"']
      (pyReplaceChar '\\' ['\\', '\\'] s))

/-- Per-character action of the composed escaping. -/
def escChar (c : Char) : Line :=
  if c = '\\' then ['\\', '\\']
  else if c = '\"' then ['\\', '\"']
  else if c = '\n' then ['\\', 'n']
  else [c]

/-- One-pass form of the escaping. -/
def escAll : Line → Line
  | [] => []
  | c :: s => escChar c ++ escAll s

/-- Modelled from the spec: the inverse unescaping of the serialized
output (interpret the two-character sequences backslash-backslash,
backslash-quote and backslash-n as backslash, quote and newline).
No unescaper exists in the repository; the specification defines the
escaping round-trip in terms of it. -/
def unescape : Line → Line
  | [] => []
  | [a] => [a]
  | a :: b :: rest =>
    if a = '\\' then
      (if b = '\\' then '\\' else if b = '\"' then '\"' else if b = 'n' then '\n' else b)
        :: unescape rest
    else a :: unescape (b :: rest)

theorem pyReplaceChar_append (c : Char) (r x y : Line) :
    pyReplaceChar c r (x ++ y) = pyReplaceChar c r x ++ pyReplaceChar c r y := by
  induction x with
  | nil => rfl
  | cons a as ih => simp [pyReplaceChar, ih, List.append_assoc]

theorem escape_cons (c : Char) (s : Line) :
    escape_swift_string (c :: s) = escChar c ++ escape_swift_string s := by
  by_cases h1 : c = '\\'
  · subst h1; simp [escape_swift_string, pyReplaceChar, escChar]
  · by_cases h2 : c = '\"'
    · subst h2; simp [escape_swift_string, pyReplaceChar, escChar, h1]
    · by_cases h3 : c = '\n'
      · subst h3; simp [escape_swift_string, pyReplaceChar, escChar, h1, h2]
      · simp [escape_swift_string, pyReplaceChar, escChar, h1, h2, h3]

theorem escape_eq_escAll (s : Line) : escape_swift_string s = escAll s := by
  induction s with
  | nil => rfl
  | cons c s ih => rw [escape_cons, escAll, ih]

theorem escAll_append (x y : Line) : escAll (x ++ y) = escAll x ++ escAll y := by
  induction x with
  | nil => rfl
  | cons a as ih => simp [escAll, ih, List.append_assoc]

theorem unescape_escChar (c : Char) (t : Line) :
    unescape (escChar c ++ t) = c :: unescape t := by
  by_cases h1 : c = '\\'
  · subst h1; simp [escChar, unescape]
  · by_cases h2 : c = '\"'
    · subst h2; simp [escChar, unescape, h1]
    · by_cases h3 : c = '\n'
      · subst h3; simp [escChar, unescape, h1, h2]
      · cases t with
        | nil => simp [escChar, unescape, h1, h2, h3]
        | cons b rest => simp [escChar, unescape, h1, h2, h3]

theorem unescape_escAll (s : Line) : unescape (escAll s) = s := by
  induction s with
  | nil => rfl
  | cons c s ih => rw [escAll, unescape_escChar, ih]

/-- C2: escaping replaces backslashes first, then quotes, then newlines
(this is `escape_swift_string` by definition); for every input the
spec-side unescaping of the escaped output reproduces the input exactly,
and hence the escaping is injective. -/
theorem C2_escape_roundtrip :
    (∀ s : Line, unescape (escape_swift_string s) = s) ∧
      Function.Injective escape_swift_string := by
  have key : ∀ s : Line, unescape (escape_swift_string s) = s := by
    intro s; rw [escape_eq_escAll]; exact unescape_escAll s
  exact ⟨key, Function.LeftInverse.injective key⟩

/-- Witness for C2 at the example input of the specification,
`say "hi"` newline `line2\end`. -/
theorem C2_escape_roundtrip_w :
    unescape (escape_swift_string (s2l "say \"hi\"\nline2\\end")) =
      s2l "say \"hi\"\nline2\\end" :=
  C2_escape_roundtrip.1 (s2l "say \"hi\"\nline2\\end")

/-- C10: every character other than backslash, double quote and line feed
passes through the escaping unchanged and in place; in particular carriage
return, tab and single quote are emitted unescaped. -/
theorem C10_escape_passthrough :
    (∀ (s t : Line) (c : Char), c ≠ '\\' → c ≠ '\"' → c ≠ '\n' →
        escape_swift_string (s ++ c :: t) =
          escape_swift_string s ++ c :: escape_swift_string t) ∧
      escape_swift_string ['\r'] = ['\r'] ∧
      escape_swift_string ['\t'] = ['\t'] ∧
      escape_swift_string ['\''] = ['\''] := by
  refine ⟨?_, by decide, by decide, by decide⟩
  intro s t c h1 h2 h3
  rw [escape_eq_escAll, escape_eq_escAll, escape_eq_escAll, escAll_append]
  have : escAll (c :: t) = c :: escAll t := by
    rw [escAll]; simp [escChar, h1, h2, h3]
  rw [this]

/-- Witness for C10: a tab embedded between two letters passes through. -/
theorem C10_escape_passthrough_w :
    escape_swift_string (s2l "a" ++ '\t' :: s2l "b") =
      escape_swift_string (s2l "a") ++ '\t' :: escape_swift_string (s2l "b") :=
  C10_escape_passthrough.1 (s2l "a") (s2l "b") '\t'
    (by decide) (by decide) (by decide)

/-! ## Record segmentation (src/parser2.py lines 29-48)

`readlines()` keeps the trailing newline on each line; lines are modelled
as they are read. -/

/-- src/parser2.py lines 29-33: `line.startswith('Q') and len(line) > 1
and line[1].isdigit()`. -/
def is_question_header (line : Line) : Bool :=
  match line with
  | a :: d :: _ => a = 'Q' && d.isDigit
  | _ => false

/-- src/parser2.py lines 36-39: indices of all boundary lines, in
document order. -/
def q_starts (lines : List Line) : List Nat :=
  (List.range lines.length).filter (fun i => is_question_header (lines.getD i []))

/-- Spans cut at the given start indices: each span is
`lines[start:next_start]`, the last is `lines[start:]`
(src/parser2.py lines 46-48, 61). -/
def spansAux (lines : List Line) : List Nat → List (List Line)
  | [] => []
  | [i] => [lines.drop i]
  | i :: j :: rest => ((lines.drop i).take (j - i)) :: spansAux lines (j :: rest)

/-- The record spans of a document, one per boundary line. -/
def spansOf (lines : List Line) : List (List Line) := spansAux lines (q_starts lines)

theorem spansAux_length (lines : List Line) :
    ∀ qs : List Nat, (spansAux lines qs).length = qs.length := by
  intro qs
  induction qs with
  | nil => rfl
  | cons i rest ih =>
    cases rest with
    | nil => rfl
    | cons j rest2 => simpa [spansAux] using ih

theorem take_sub_append_drop {α : Type} (l : List α) (i j : Nat) (hij : i ≤ j) :
    (l.drop i).take (j - i) ++ l.drop j = l.drop i := by
  conv_rhs => rw [← List.take_append_drop (j - i) (l.drop i)]
  rw [List.drop_drop, Nat.add_sub_cancel' hij]

theorem spansAux_join (lines : List Line) :
    ∀ (rest : List Nat) (i : Nat), List.Pairwise (· ≤ ·) (i :: rest) →
      (spansAux lines (i :: rest)).flatten = lines.drop i := by
  intro rest
  induction rest with
  | nil => intro i _; simp [spansAux]
  | cons j rest2 ih =>
    intro i hp
    have hij : i ≤ j := (List.pairwise_cons.mp hp).1 j (by simp)
    have htail : List.Pairwise (· ≤ ·) (j :: rest2) := (List.pairwise_cons.mp hp).2
    simp only [spansAux, List.flatten_cons, ih j htail]
    exact take_sub_append_drop lines i j hij

theorem q_starts_pairwise (lines : List Line) :
    List.Pairwise (· < ·) (q_starts lines) :=
  List.Pairwise.filter _ (List.pairwise_lt_range lines.length)

/-! ### Segmentation of src/parse_questions.py (lines 17 and 28-35)

The multiline regex is applied to the whole document; each match covers
one matching line, from its line-start offset to its line-end offset,
and each record body is sliced from the END of its match to the start
of the next match. -/

/-- src/parse_questions.py line 17: one line matches the record pattern
`Q` digits, later an ASCII letter followed by at least one more
character before end of line. -/
def qMatchLine (line : Line) : Bool :=
  match line with
  | a :: d :: rest => a = 'Q' && d.isDigit && rest.dropLast.any (fun c => c.isAlpha)
  | _ => false

/-- The (start, end) offset pairs of the regex matches, scanned over the
lines of the document with their character offsets (each line is
followed by one newline character). -/
def pqMatchesAux : Nat → List Line → List (Nat × Nat)
  | _, [] => []
  | pos, l :: ls =>
    (if qMatchLine l then [(pos, pos + l.length)] else []) ++
      pqMatchesAux (pos + l.length + 1) ls

/-- All match spans of the document (src/parse_questions.py line 17). -/
def pq_match_spans (content : Line) : List (Nat × Nat) :=
  pqMatchesAux 0 (splitNL content)

/-- src/parse_questions.py lines 28-35: each record body is
`content[match.end() : next_match.start()]`, the last running to
end-of-document. -/
def pqBodiesAux (content : Line) : List (Nat × Nat) → List Line
  | [] => []
  | [(_, e)] => [content.drop e]
  | (_, e) :: (s2, e2) :: rest =>
    ((content.drop e).take (s2 - e)) :: pqBodiesAux content ((s2, e2) :: rest)

/-- The record bodies of src/parse_questions.py, one per match. -/
def pq_bodies (content : Line) : List Line :=
  pqBodiesAux content (pq_match_spans content)

/-- Well-formedness of a span list: a lower bound on the first start,
each span starts before it ends, and ends before the next start. -/
def spansOK : Nat → List (Nat × Nat) → Prop
  | _, [] => True
  | lo, (s, e) :: rest => lo ≤ s ∧ s ≤ e ∧ spansOK e rest

theorem spansOK_mono : ∀ (sp : List (Nat × Nat)) (a b : Nat),
    spansOK a sp → b ≤ a → spansOK b sp := by
  intro sp a b h hba
  cases sp with
  | nil => trivial
  | cons p rest =>
    obtain ⟨s, e⟩ := p
    obtain ⟨h1, h2, h3⟩ := h
    exact ⟨Nat.le_trans hba h1, h2, h3⟩

theorem pqMatchesAux_ok : ∀ (ls : List Line) (pos : Nat),
    spansOK pos (pqMatchesAux pos ls) := by
  intro ls
  induction ls with
  | nil => intro pos; trivial
  | cons l ls ih =>
    intro pos
    by_cases hq : qMatchLine l = true
    · simp only [pqMatchesAux, hq, if_true, List.singleton_append]
      exact ⟨Nat.le_refl _, Nat.le_add_right _ _,
        spansOK_mono _ _ _ (ih (pos + l.length + 1)) (Nat.le_succ _)⟩
    · simp only [pqMatchesAux, hq, if_false, List.nil_append]
      exact spansOK_mono _ _ _ (ih (pos + l.length + 1)) (by omega)

theorem pqBodiesAux_length (content : Line) :
    ∀ sp : List (Nat × Nat), (pqBodiesAux content sp).length = sp.length := by
  intro sp
  induction sp with
  | nil => rfl
  | cons p rest ih =>
    obtain ⟨s, e⟩ := p
    cases rest with
    | nil => rfl
    | cons q rest2 =>
      obtain ⟨s2, e2⟩ := q
      simpa [pqBodiesAux] using ih

/-- Interleaving each matched header segment with its body reconstructs
the document from the first match start. -/
theorem pq_alt_join (content : Line) :
    ∀ (rest : List (Nat × Nat)) (s e : Nat), s ≤ e → spansOK e rest →
      (List.zipWith (fun p b => (content.drop p.1).take (p.2 - p.1) ++ b)
        ((s, e) :: rest) (pqBodiesAux content ((s, e) :: rest))).flatten =
        content.drop s := by
  intro rest
  induction rest with
  | nil =>
    intro s e hse _
    simpa [pqBodiesAux] using take_sub_append_drop content s e hse
  | cons q rest2 ih =>
    obtain ⟨s2, e2⟩ := q
    intro s e hse hok
    obtain ⟨hes2, hs2e2, hok2⟩ := hok
    have ihr := ih s2 e2 hs2e2 hok2
    simp only [pqBodiesAux, List.zipWith_cons_cons, List.flatten_cons] at ihr ⊢
    rw [ihr, List.append_assoc, take_sub_append_drop content e s2 hes2,
      take_sub_append_drop content s e hse]

/-- C1 counterexample: on the two-record document
`"Q1 Ab\nx\nQ2 Cd\ny"` the parse_questions matches start at offsets 0
and 8, but the record spans are sliced from each match END (offsets 5
and 13): the first span is the text from offset 5, not from its match
position 0, and the concatenation of the spans omits the header lines
instead of reconstructing the suffix from the first match. -/
theorem C1_segmentation_cex :
    pq_match_spans (s2l "Q1 Ab\nx\nQ2 Cd\ny") = [(0, 5), (8, 13)] ∧
      pq_bodies (s2l "Q1 Ab\nx\nQ2 Cd\ny") = [s2l "\nx\n", s2l "\ny"] ∧
      (pq_bodies (s2l "Q1 Ab\nx\nQ2 Cd\ny")).flatten ≠
        (s2l "Q1 Ab\nx\nQ2 Cd\ny").drop 0 := by
  exact ⟨by decide, by decide, by decide⟩

/-- C1 (amended): in src/parser2.py the segmenter computes all
boundary-line positions in document order (a strictly increasing list
containing exactly the indices of the boundary lines), yields exactly
one span per match, each span running from its match position up to the
next match position (final to end-of-document), and the concatenation
of the spans reconstructs the document from the first match onward.  In
src/parse_questions.py there is exactly one record body per match, but
each body runs from the END of its match (the end of the header line)
up to the start of the next match; the suffix from the first match is
reconstructed by interleaving each matched header segment with its
body, the bodies alone omitting the matched header segments. -/
theorem C1_segmentation (lines : List Line) (content : Line) :
    (spansOf lines).length = (q_starts lines).length ∧
      List.Pairwise (· < ·) (q_starts lines) ∧
      (∀ i, i ∈ q_starts lines ↔
        i < lines.length ∧ is_question_header (lines.getD i []) = true) ∧
      (∀ i rest, q_starts lines = i :: rest →
        (spansOf lines).flatten = lines.drop i) ∧
      (pq_bodies content).length = (pq_match_spans content).length ∧
      (∀ s e rest, pq_match_spans content = (s, e) :: rest →
        (List.zipWith (fun p b => (content.drop p.1).take (p.2 - p.1) ++ b)
          (pq_match_spans content) (pq_bodies content)).flatten =
          content.drop s) := by
  refine ⟨spansAux_length lines (q_starts lines), q_starts_pairwise lines,
    ?_, ?_, pqBodiesAux_length content _, ?_⟩
  · intro i
    simp [q_starts, List.mem_filter, List.mem_range]
  · intro i rest h
    have hp : List.Pairwise (· ≤ ·) (i :: rest) := by
      have := q_starts_pairwise lines
      rw [h] at this
      exact this.imp (fun {a b} hab => Nat.le_of_lt hab)
    rw [spansOf, h]
    exact spansAux_join lines rest i hp
  · intro s e rest h
    have hok : spansOK 0 (pq_match_spans content) := pqMatchesAux_ok _ 0
    rw [h] at hok
    obtain ⟨_, hse, hok2⟩ := hok
    rw [pq_bodies, h]
    exact pq_alt_join content rest s e hse hok2

/-- Witness for C1: parser2 spans on a three-line document with two
boundary lines, and the interleaved header-body reconstruction of
parse_questions on a one-record document. -/
theorem C1_segmentation_w :
    (spansOf [s2l "Q1 - A\n", s2l "x\n", s2l "Q2 - B\n"]).flatten =
        [s2l "Q1 - A\n", s2l "x\n", s2l "Q2 - B\n"] ∧
      (List.zipWith
          (fun p b => ((s2l "Q1 Ab\nx\ny").drop p.1).take (p.2 - p.1) ++ b)
          (pq_match_spans (s2l "Q1 Ab\nx\ny"))
          (pq_bodies (s2l "Q1 Ab\nx\ny"))).flatten =
        (s2l "Q1 Ab\nx\ny").drop 0 :=
  ⟨(C1_segmentation [s2l "Q1 - A\n", s2l "x\n", s2l "Q2 - B\n"]
      (s2l "Q1 Ab\nx\ny")).2.2.2.1 0 [2] (by decide),
    (C1_segmentation [s2l "Q1 - A\n", s2l "x\n", s2l "Q2 - B\n"]
      (s2l "Q1 Ab\nx\ny")).2.2.2.2.2 0 5 [] (by decide)⟩

/-! ## Field extraction (src/parser2.py lines 17-27 and 62-95) -/

/-- src/parser2.py lines 18-27: the recognized labels and the field role
each maps to, in dictionary (insertion) order. -/
def headers_map : List (Line × Line) := [
  (s2l "Broken Code", s2l "initialCode"),
  (s2l "Error", s2l "description"),
  (s2l "Correct Code", s2l "correctCode"),
  (s2l "Riddle", s2l "riddle"),
  (s2l "Hidden Test Cases (Logic-validated)", s2l "hiddenTests"),
  (s2l "Logic Rule", s2l "conceptExplanation"),
  (s2l "Regex / Token Rules", s2l "expectedPatterns"),
  (s2l "Answer", s2l "answer")]

/-- src/parser2.py lines 70-77: the first label `h` (in dictionary order)
with `line_stripped.startswith(h) and len(line_stripped) <= len(h) + 5`,
together with its role. -/
def findHeader (ls : Line) : Option (Line × Line) :=
  headers_map.find? (fun p => startsW p.1 ls && decide (ls.length ≤ p.1.length + 5))

/-- The loop state of src/parser2.py lines 63-65: the fields mapping, the
current header (label and role) and the accumulated content lines. -/
structure ExtractState where
  fields : Line → Option Line
  currentHeader : Option (Line × Line)
  currentContent : List Line

/-- Python dict assignment `fields[k] = v`. -/
def updF (f : Line → Option Line) (k v : Line) : Line → Option Line :=
  fun r => if r = k then some v else f r

/-- Closing out a field: `'\n'.join(current_content).strip()`
(src/parser2.py lines 73 and 84). -/
def finishField (content : List Line) : Line := pyStrip (joinNL content)

/-- One iteration of the body loop, src/parser2.py lines 67-81: a header
line closes the open field and opens a new one; any other line is
right-stripped and appended to the open field (or dropped when no field
is open). -/
def stepLine (st : ExtractState) (line : Line) : ExtractState :=
  match findHeader (pyStrip line) with
  | some hr =>
    { fields :=
        match st.currentHeader with
        | some hr0 => updF st.fields hr0.2 (finishField st.currentContent)
        | none => st.fields,
      currentHeader := some hr,
      currentContent := [] }
  | none =>
    match st.currentHeader with
    | some _ => { st with currentContent := st.currentContent ++ [pyRstrip line] }
    | none => st

/-- Final flush after the loop, src/parser2.py lines 83-84. -/
def finalizeSt (st : ExtractState) : Line → Option Line :=
  match st.currentHeader with
  | some hr => updF st.fields hr.2 (finishField st.currentContent)
  | none => st.fields

/-- Run the body loop from a given state and flush. -/
def runFrom (st : ExtractState) (body : List Line) : Line → Option Line :=
  finalizeSt (body.foldl stepLine st)

/-- Field extraction over the body lines of a record span
(src/parser2.py lines 62-84): the resulting role-to-text mapping. -/
def runBody (body : List Line) : Line → Option Line :=
  runFrom ⟨fun _ => none, none, []⟩ body

theorem headers_roles_inj :
    ∀ p ∈ headers_map, ∀ q ∈ headers_map, p.2 = q.2 → p = q := by decide

theorem headers_key_not_pref :
    ∀ p ∈ headers_map, ∀ q ∈ headers_map, startsW p.1 q.1 = true → p = q := by decide

theorem startsW_comparable :
    ∀ (s a b : Line), startsW a s = true → startsW b s = true →
      startsW a b = true ∨ startsW b a = true := by
  intro s
  induction s with
  | nil =>
    intro a b ha hb
    cases a with
    | nil => exact Or.inl (by cases b <;> simp [startsW] at hb ⊢)
    | cons x xs => simp [startsW] at ha
  | cons c ss ih =>
    intro a b ha hb
    cases a with
    | nil => exact Or.inl (by simp [startsW])
    | cons x xs =>
      cases b with
      | nil => exact Or.inr (by simp [startsW])
      | cons y ys =>
        simp only [startsW, Bool.and_eq_true, decide_eq_true_eq] at ha hb
        rcases ih xs ys ha.2 hb.2 with h | h
        · exact Or.inl (by simp [startsW, ha.1, hb.1, h])
        · exact Or.inr (by simp [startsW, ha.1, hb.1, h])

theorem find?_eq_of_unique {α : Type} (p : α → Bool) (x : α) :
    ∀ l : List α, x ∈ l → p x = true → (∀ y ∈ l, p y = true → y = x) →
      l.find? p = some x := by
  intro l
  induction l with
  | nil => intro hx _ _; cases hx
  | cons a t ih =>
    intro hx hpx huniq
    by_cases hpa : p a = true
    · rw [List.find?_cons_of_pos _ hpa]
      exact congrArg some (huniq a (by simp) hpa)
    · rw [List.find?_cons_of_neg _ (by simpa using hpa)]
      rcases List.mem_cons.mp hx with rfl | hx2
      · exact absurd hpx hpa
      · exact ih hx2 hpx fun y hy hpy => huniq y (by simp [hy]) hpy

theorem findHeader_mem {ls : Line} {p : Line × Line} (h : findHeader ls = some p) :
    p ∈ headers_map :=
  List.mem_of_find?_eq_some h

theorem findHeader_pred {ls : Line} {p : Line × Line} (h : findHeader ls = some p) :
    startsW p.1 ls = true ∧ ls.length ≤ p.1.length + 5 := by
  have := List.find?_some h
  simpa using this

/-- Any header matched by a line has a role different from `r` provided
the line does not match the pair `(h, r)` itself. -/
theorem matched_role_ne {ls : Line} {p : Line × Line} {h r : Line}
    (hf : findHeader ls = some p) (hmem : (h, r) ∈ headers_map)
    (hne : findHeader ls ≠ some (h, r)) : p.2 ≠ r := by
  intro hpr
  have : p = (h, r) := headers_roles_inj p (findHeader_mem hf) (h, r) hmem hpr
  exact hne (this ▸ hf)

theorem foldl_noheader (mid : List Line) :
    ∀ (F : Line → Option Line) (hr : Line × Line) (acc : List Line),
      (∀ l ∈ mid, findHeader (pyStrip l) = none) →
      mid.foldl stepLine ⟨F, some hr, acc⟩ = ⟨F, some hr, acc ++ mid.map pyRstrip⟩ := by
  induction mid with
  | nil => intro F hr acc _; simp
  | cons l mid ih =>
    intro F hr acc hnone
    have hl : findHeader (pyStrip l) = none := hnone l (by simp)
    have hstep : stepLine ⟨F, some hr, acc⟩ l = ⟨F, some hr, acc ++ [pyRstrip l]⟩ := by
      simp [stepLine, hl]
    rw [List.foldl_cons, hstep, ih F hr (acc ++ [pyRstrip l]) (fun x hx => hnone x (by simp [hx]))]
    simp

theorem runFrom_preserves (ls : List Line) :
    ∀ (F : Line → Option Line) (ch : Option (Line × Line)) (acc : List Line) (r : Line),
      (∀ l ∈ ls, ∀ p, findHeader (pyStrip l) = some p → p.2 ≠ r) →
      (∀ q, ch = some q → q.2 ≠ r) →
      runFrom ⟨F, ch, acc⟩ ls r = F r := by
  induction ls with
  | nil =>
    intro F ch acc r _ hch
    cases ch with
    | none => rfl
    | some q =>
      have hq : r ≠ q.2 := fun hh => (hch q rfl) hh.symm
      simp [runFrom, finalizeSt, updF, hq]
  | cons l ls ih =>
    intro F ch acc r hls hch
    rw [runFrom, List.foldl_cons]
    cases hfind : findHeader (pyStrip l) with
    | some p =>
      have hp2 : p.2 ≠ r := hls l (by simp) p hfind
      have hF' : ∀ F', (match ch with
          | some hr0 => updF F' hr0.2 (finishField acc)
          | none => F') r = F' r := by
        intro F'
        cases ch with
        | none => rfl
        | some q =>
          have hq : r ≠ q.2 := fun hh => (hch q rfl) hh.symm
          simp [updF, hq]
      have hstep : stepLine ⟨F, ch, acc⟩ l =
          ⟨(match ch with
            | some hr0 => updF F hr0.2 (finishField acc)
            | none => F), some p, []⟩ := by
        simp [stepLine, hfind]
      have hih := ih (match ch with
          | some hr0 => updF F hr0.2 (finishField acc)
          | none => F) (some p) [] r (fun x hx => hls x (by simp [hx]))
        (fun q hq => by cases hq; exact hp2)
      rw [runFrom] at hih
      rw [hstep, hih]
      exact hF' F
    | none =>
      cases ch with
      | none =>
        have hstep : stepLine ⟨F, none, acc⟩ l = ⟨F, none, acc⟩ := by
          simp [stepLine, hfind]
        rw [hstep]
        exact ih F none acc r (fun x hx => hls x (by simp [hx])) hch
      | some q =>
        have hstep : stepLine ⟨F, some q, acc⟩ l = ⟨F, some q, acc ++ [pyRstrip l]⟩ := by
          simp [stepLine, hfind]
        rw [hstep]
        exact ih F (some q) (acc ++ [pyRstrip l]) r (fun x hx => hls x (by simp [hx])) hch

theorem seg_core (F₂ : Line → Option Line) (mid post : List Line) (h r : Line)
    (hmem : (h, r) ∈ headers_map)
    (hmid : ∀ l ∈ mid, findHeader (pyStrip l) = none)
    (hterm : post = [] ∨ ∃ l₂ t₂ p₂, post = l₂ :: t₂ ∧ findHeader (pyStrip l₂) = some p₂)
    (hnolater : ∀ l ∈ post, findHeader (pyStrip l) ≠ some (h, r)) :
    finalizeSt (List.foldl stepLine ⟨F₂, some (h, r), []⟩ (mid ++ post)) r =
      some (pyStrip (joinNL (mid.map pyRstrip))) := by
  rw [List.foldl_append, foldl_noheader mid _ _ [] hmid]
  simp only [List.nil_append]
  rcases hterm with rfl | ⟨l₂, t₂, p₂, rfl, hm2⟩
  · simp [finalizeSt, finishField, updF]
  · rw [List.foldl_cons]
    have hp2 : p₂.2 ≠ r := matched_role_ne hm2 hmem (hnolater l₂ (by simp))
    have hstep2 : stepLine ⟨F₂, some (h, r), mid.map pyRstrip⟩ l₂ =
        ⟨updF F₂ r (finishField (mid.map pyRstrip)), some p₂, []⟩ := by
      simp [stepLine, hm2]
    rw [hstep2]
    have hpres := runFrom_preserves t₂
      (updF F₂ r (finishField (mid.map pyRstrip))) (some p₂) [] r
      (fun l hl p hf => matched_role_ne hf hmem (hnolater l (by simp [hl])))
      (fun q hq => by cases hq; exact hp2)
    rw [runFrom] at hpres
    rw [hpres]
    simp [updF, finishField]

/-- The central segment lemma: the field opened by a header line holds
exactly the right-stripped lines up to the next header line (or span
end), joined with newlines and stripped. -/
theorem runBody_segment (pre mid post : List Line) (ℓ : Line) (h r : Line)
    (hm : findHeader (pyStrip ℓ) = some (h, r))
    (hmid : ∀ l ∈ mid, findHeader (pyStrip l) = none)
    (hterm : post = [] ∨ ∃ l₂ t₂ p₂, post = l₂ :: t₂ ∧ findHeader (pyStrip l₂) = some p₂)
    (hnolater : ∀ l ∈ post, findHeader (pyStrip l) ≠ some (h, r)) :
    runBody (pre ++ ℓ :: (mid ++ post)) r = some (pyStrip (joinNL (mid.map pyRstrip))) := by
  have hmem : (h, r) ∈ headers_map := findHeader_mem hm
  rw [runBody, runFrom, List.foldl_append]
  generalize List.foldl stepLine ⟨fun _ => none, none, []⟩ pre = st₁
  obtain ⟨F₁, ch₁, cc₁⟩ := st₁
  rw [List.foldl_cons]
  cases ch₁ with
  | none =>
    have hstep : stepLine ⟨F₁, none, cc₁⟩ ℓ = ⟨F₁, some (h, r), []⟩ := by
      simp [stepLine, hm]
    rw [hstep]
    exact seg_core F₁ mid post h r hmem hmid hterm hnolater
  | some q =>
    have hstep : stepLine ⟨F₁, some q, cc₁⟩ ℓ =
        ⟨updF F₁ q.2 (finishField cc₁), some (h, r), []⟩ := by
      simp [stepLine, hm]
    rw [hstep]
    exact seg_core _ mid post h r hmem hmid hterm hnolater

/-! ### The block parsing loop of src/generate_questions_c_l3.py
(lines 741-770) -/

/-- src/generate_questions_c_l3.py lines 744-757: the exact
section-label match of a stripped line. -/
def cl3SectionOf (ls : Line) : Option Line :=
  if ls = s2l "Question" then some (s2l "question")
  else if ls = s2l "Broken Code" then some (s2l "broken")
  else if ls = s2l "Correct Code" then some (s2l "correct")
  else if ls = s2l "Riddle" then some (s2l "riddle")
  else if ls = s2l "Answer" then some (s2l "answer")
  else none

/-- Loop state of src/generate_questions_c_l3.py lines 733-770: the five
accumulator strings (represented as one section-indexed map, all
initially empty) and the current section. -/
structure Cl3State where
  acc : Line → Line
  current : Option Line

/-- One iteration of the c_l3 block loop (lines 741-770): blank lines
are skipped entirely, an exact label line switches the current section,
and any other line is appended raw plus a newline to the current
section's accumulator (or dropped when no section is open). -/
def cl3Step (st : Cl3State) (line : Line) : Cl3State :=
  if pyStrip line = [] then st
  else
    match cl3SectionOf (pyStrip line) with
    | some sec => { st with current := some sec }
    | none =>
      match st.current with
      | some c =>
        { st with acc := fun r => if r = c then st.acc c ++ line ++ ['\n'] else st.acc r }
      | none => st

/-- The extracted fields of one c_l3 record given its body lines: each
accumulator stripped at use (lines 772-781, e.g.
`question_text.strip()`). -/
def cl3FieldsOfLines (ls : List Line) : Line → Line :=
  fun r => pyStrip ((ls.foldl cl3Step ⟨fun _ => [], none⟩).acc r)

/-- The extracted fields of one c_l3 block string. -/
def cl3Fields (block : Line) : Line → Line := cl3FieldsOfLines (splitNL block)

theorem cl3_preserve (sec : Line) : ∀ (ls : List Line) (st : Cl3State),
    (∀ l ∈ ls, cl3SectionOf (pyStrip l) ≠ some sec) →
    st.current ≠ some sec →
    (ls.foldl cl3Step st).acc sec = st.acc sec ∧
      (ls.foldl cl3Step st).current ≠ some sec := by
  intro ls
  induction ls with
  | nil => intro st _ hcur; exact ⟨rfl, hcur⟩
  | cons l ls ih =>
    intro st hno hcur
    by_cases hb : pyStrip l = []
    · have hstep : cl3Step st l = st := by simp [cl3Step, hb]
      rw [List.foldl_cons, hstep]
      exact ih st (fun x hx => hno x (by simp [hx])) hcur
    · cases hsec : cl3SectionOf (pyStrip l) with
      | some s2 =>
        have hs2 : s2 ≠ sec := fun h => hno l (by simp) (by rw [hsec, h])
        have hstep : cl3Step st l = { st with current := some s2 } := by
          simp [cl3Step, hb, hsec]
        rw [List.foldl_cons, hstep]
        exact ih _ (fun x hx => hno x (by simp [hx])) (by simp [hs2])
      | none =>
        cases hcur2 : st.current with
        | none =>
          have hstep : cl3Step st l = st := by simp [cl3Step, hb, hsec, hcur2]
          rw [List.foldl_cons, hstep]
          exact ih st (fun x hx => hno x (by simp [hx])) hcur
        | some c =>
          have hcne : c ≠ sec := fun h => hcur (by rw [hcur2, h])
          have hstep : cl3Step st l =
              { st with acc :=
                fun r => if r = c then st.acc c ++ l ++ ['\n'] else st.acc r } := by
            simp [cl3Step, hb, hsec, hcur2]
          rw [List.foldl_cons, hstep]
          have hrec := ih
            { st with acc :=
              fun r => if r = c then st.acc c ++ l ++ ['\n'] else st.acc r }
            (fun x hx => hno x (by simp [hx])) (by simpa [hcur2] using hcur)
          refine ⟨?_, hrec.2⟩
          rw [hrec.1]
          have hne : sec ≠ c := fun h => hcne h.symm
          simp [hne]

theorem cl3_accum (sec : Line) : ∀ (mid : List Line) (st : Cl3State),
    st.current = some sec →
    (∀ l ∈ mid, cl3SectionOf (pyStrip l) = none) →
    (mid.foldl cl3Step st).acc sec =
      st.acc sec ++
        ((mid.filter (fun l => !(pyStrip l).isEmpty)).map (fun l => l ++ ['\n'])).flatten ∧
      (mid.foldl cl3Step st).current = some sec := by
  intro mid
  induction mid with
  | nil => intro st hcur _; simp [hcur]
  | cons l mid ih =>
    intro st hcur hmid
    by_cases hb : pyStrip l = []
    · have hstep : cl3Step st l = st := by simp [cl3Step, hb]
      have hfilt : (pyStrip l).isEmpty = true := by simp [hb]
      rw [List.foldl_cons, hstep, List.filter_cons]
      simp only [hfilt, Bool.not_true, if_false]
      exact ih st hcur fun x hx => hmid x (by simp [hx])
    · have hsec : cl3SectionOf (pyStrip l) = none := hmid l (by simp)
      have hstep : cl3Step st l =
          { st with acc :=
            fun r => if r = sec then st.acc sec ++ l ++ ['\n'] else st.acc r } := by
        simp [cl3Step, hb, hsec, hcur]
      have hfilt : (pyStrip l).isEmpty = false := by
        cases hpl : pyStrip l with
        | nil => exact absurd hpl hb
        | cons a t => rfl
      rw [List.foldl_cons, hstep, List.filter_cons]
      simp only [hfilt, Bool.not_false, if_true]
      have hrec := ih
        { st with acc :=
          fun r => if r = sec then st.acc sec ++ l ++ ['\n'] else st.acc r }
        hcur (fun x hx => hmid x (by simp [hx]))
      refine ⟨?_, hrec.2⟩
      rw [hrec.1]
      simp [List.append_assoc]

/-- The c_l3 analogue of the segment lemma: the field of a section label
holds exactly the non-blank lines strictly between that label line and
the next label line (or span end), each kept raw plus a newline. -/
theorem cl3_segment (pre mid post : List Line) (ℓ sec : Line)
    (hpre : ∀ l ∈ pre, cl3SectionOf (pyStrip l) ≠ some sec)
    (hm : cl3SectionOf (pyStrip ℓ) = some sec)
    (hmid : ∀ l ∈ mid, cl3SectionOf (pyStrip l) = none)
    (hterm : post = [] ∨ ∃ l₂ t₂ s₂, post = l₂ :: t₂ ∧ cl3SectionOf (pyStrip l₂) = some s₂)
    (hnolater : ∀ l ∈ post, cl3SectionOf (pyStrip l) ≠ some sec) :
    cl3FieldsOfLines (pre ++ ℓ :: (mid ++ post)) sec =
      pyStrip (((mid.filter (fun l => !(pyStrip l).isEmpty)).map
        (fun l => l ++ ['\n'])).flatten) := by
  have hbℓ : pyStrip ℓ ≠ [] := by
    intro h
    rw [h] at hm
    simp [cl3SectionOf, s2l] at hm
  rw [cl3FieldsOfLines, List.foldl_append, List.foldl_cons]
  have hpre2 := cl3_preserve sec pre ⟨fun _ => [], none⟩ hpre (by simp)
  have hstep : cl3Step (pre.foldl cl3Step ⟨fun _ => [], none⟩) ℓ =
      { pre.foldl cl3Step ⟨fun _ => [], none⟩ with current := some sec } := by
    simp [cl3Step, hbℓ, hm]
  rw [hstep, List.foldl_append]
  have hmid2 := cl3_accum sec mid
    { pre.foldl cl3Step ⟨fun _ => [], none⟩ with current := some sec }
    rfl hmid
  rcases hterm with rfl | ⟨l₂, t₂, s₂, rfl, hm2⟩
  · simp only [List.foldl_nil]
    rw [hmid2.1]
    simp [hpre2.1]
  · rw [List.foldl_cons]
    have hs₂ : s₂ ≠ sec := by
      intro h
      exact hnolater l₂ (by simp) (by rw [hm2, h])
    have hbl₂ : pyStrip l₂ ≠ [] := by
      intro h
      rw [h] at hm2
      simp [cl3SectionOf, s2l] at hm2
    have hstep2 : cl3Step (mid.foldl cl3Step
        { pre.foldl cl3Step ⟨fun _ => [], none⟩ with current := some sec }) l₂ =
        { mid.foldl cl3Step
            { pre.foldl cl3Step ⟨fun _ => [], none⟩ with current := some sec }
          with current := some s₂ } := by
      simp [cl3Step, hbl₂, hm2]
    rw [hstep2]
    have hpost := cl3_preserve sec t₂
      { mid.foldl cl3Step
          { pre.foldl cl3Step ⟨fun _ => [], none⟩ with current := some sec }
        with current := some s₂ }
      (fun x hx => hnolater x (by simp [hx])) (by simp [hs₂])
    rw [hpost.1]
    simp only
    rw [hmid2.1]
    simp [hpre2.1]

/-- C3 counterexample: in src/parser2.py, for the record body
`["Error", "  boom"]` the text strictly between the label line and span
end is the single line `"  boom"` with no leading or trailing blank
line, so the claim predicts the field value `"  boom"` with indentation
preserved verbatim, but the extractor yields `"boom"`; and in
src/generate_questions_c_l3.py the interior blank line of the body
`"x = 1"`, `""`, `"y = 2"` is dropped rather than preserved. -/
theorem C3_field_text_cex :
    runBody [s2l "Error", s2l "  boom"] (s2l "description") = some (s2l "boom") ∧
      runBody [s2l "Error", s2l "  boom"] (s2l "description") ≠ some (s2l "  boom") ∧
      cl3Fields (s2l "Broken Code\nx = 1\n\ny = 2") (s2l "broken") =
        s2l "x = 1\ny = 2" ∧
      s2l "x = 1\ny = 2" ≠ s2l "x = 1\n\ny = 2" := by
  exact ⟨by decide, by decide, by decide, by decide⟩

/-- C3 (amended): in src/parser2.py the extracted text of a field is the
newline-join of the right-stripped lines strictly between that field's
label line and the next label line (or span end), with the joined text
then stripped of leading and trailing whitespace (so leading
indentation on the first content line and trailing whitespace are
removed as well, not only blank lines), interior blank lines and
interior indentation being preserved.  In
src/generate_questions_c_l3.py the extracted text of a section is built
from only the NON-blank lines strictly between that section's label
line and the next label line (or span end) — interior blank lines are
dropped — each line kept raw and newline-terminated, with the result
stripped at use. -/
theorem C3_field_text :
    (∀ (pre mid post : List Line) (ℓ h r : Line),
        findHeader (pyStrip ℓ) = some (h, r) →
        (∀ l ∈ mid, findHeader (pyStrip l) = none) →
        (post = [] ∨ ∃ l₂ t₂ p₂, post = l₂ :: t₂ ∧ findHeader (pyStrip l₂) = some p₂) →
        (∀ l ∈ post, findHeader (pyStrip l) ≠ some (h, r)) →
        runBody (pre ++ ℓ :: (mid ++ post)) r =
          some (pyStrip (joinNL (mid.map pyRstrip)))) ∧
      (∀ (pre mid post : List Line) (ℓ sec : Line),
        (∀ l ∈ pre, cl3SectionOf (pyStrip l) ≠ some sec) →
        cl3SectionOf (pyStrip ℓ) = some sec →
        (∀ l ∈ mid, cl3SectionOf (pyStrip l) = none) →
        (post = [] ∨ ∃ l₂ t₂ s₂, post = l₂ :: t₂ ∧ cl3SectionOf (pyStrip l₂) = some s₂) →
        (∀ l ∈ post, cl3SectionOf (pyStrip l) ≠ some sec) →
        cl3FieldsOfLines (pre ++ ℓ :: (mid ++ post)) sec =
          pyStrip (((mid.filter (fun l => !(pyStrip l).isEmpty)).map
            (fun l => l ++ ['\n'])).flatten)) :=
  ⟨fun pre mid post ℓ h r hm hmid hterm hnolater =>
      runBody_segment pre mid post ℓ h r hm hmid hterm hnolater,
    fun pre mid post ℓ sec hpre hm hmid hterm hnolater =>
      cl3_segment pre mid post ℓ sec hpre hm hmid hterm hnolater⟩

/-- Witness for C3: a parser2 body whose field content has an interior
blank line and interior indentation (both preserved), and a c_l3 body
whose indented second line is kept raw while its blank line is
dropped. -/
theorem C3_field_text_w :
    runBody [s2l "Error", s2l "a", s2l "", s2l "  b"] (s2l "description") =
        some (s2l "a\n\n  b") ∧
      cl3FieldsOfLines [s2l "Broken Code", s2l "x = 1", s2l "", s2l "  y",
          s2l "Riddle", s2l "r"] (s2l "broken") = s2l "x = 1\n  y" := by
  constructor
  · have := C3_field_text.1 [] [s2l "a", s2l "", s2l "  b"] [] (s2l "Error")
      (s2l "Error") (s2l "description") (by decide) (by decide) (Or.inl rfl)
      (by decide)
    simpa using this.trans (by decide)
  · have := C3_field_text.2 [] [s2l "x = 1", s2l "", s2l "  y"]
      [s2l "Riddle", s2l "r"] (s2l "Broken Code") (s2l "broken")
      (by decide) (by decide) (by decide)
      (Or.inr ⟨s2l "Riddle", [s2l "r"], s2l "riddle", rfl, by decide⟩)
      (by decide)
    simpa using this.trans (by decide)

/-- Python `s.replace('\\', '')`: remove every backslash. -/
def pyRemoveBS (l : Line) : Line := l.filter (fun c => c != '\\')

/-- src/parse_questions.py lines 57-67: the first label `h` (in
dictionary order) with
`line_stripped.replace('\\', '') == h or h in line_stripped` and
`line_stripped.startswith(h)` — there is no length bound at all. -/
def findHeaderPQ (ls : Line) : Option (Line × Line) :=
  headers_map.find? (fun p =>
    (pyRemoveBS ls == p.1 || containsSeg p.1 ls) && startsW p.1 ls)

theorem startsW_containsSeg {n h : Line} (hs : startsW n h = true) :
    containsSeg n h = true := by
  cases h with
  | nil => simpa [containsSeg] using hs
  | cons c t => simp [containsSeg, hs]

/-- C4 counterexample: in src/parser2.py the line
`"Hidden Test Cases (Logic-validated)!!"` is not an exact match of the
long-form label, yet the extractor treats it as that label line (it
starts with the label and is within the uniform five-character slack),
opening a `hiddenTests` field, while the claim requires an exact match
for this label; and in src/parse_questions.py the line
`"Error: Expression not returned."` is treated as an Error label line
although it exceeds the label length plus any handful-sized slack. -/
theorem C4_label_rule_cex :
    runBody [s2l "Hidden Test Cases (Logic-validated)!!", s2l "foo"]
        (s2l "hiddenTests") = some (s2l "foo") ∧
      s2l "Hidden Test Cases (Logic-validated)!!" ≠
        s2l "Hidden Test Cases (Logic-validated)" ∧
      findHeaderPQ (s2l "Error: Expression not returned.") =
        some (s2l "Error", s2l "description") ∧
      ¬ (s2l "Error: Expression not returned.").length ≤
        (s2l "Error").length + 5 := by
  exact ⟨by decide, by decide, by decide, by decide⟩

/-- C4 (amended): in src/parser2.py a line is treated as a new field
label exactly when its trimmed form starts with a recognized label and
is no longer than the label's length plus five characters, uniformly
over all labels including the long-form heading
`Hidden Test Cases (Logic-validated)` (no exact-match exception).  In
src/parse_questions.py a line is treated as a new field label exactly
when its trimmed form starts with a recognized label, with no length
bound at all.  In both scripts a label name occurring anywhere other
than at the start of the trimmed line never triggers a label match. -/
theorem C4_label_rule :
    (∀ (ls h r : Line), findHeader ls = some (h, r) ↔
        ((h, r) ∈ headers_map ∧ startsW h ls = true ∧ ls.length ≤ h.length + 5)) ∧
      (∀ ls : Line, (∀ p ∈ headers_map, startsW p.1 ls = false) →
        findHeader ls = none) ∧
      (∀ (ls h r : Line), findHeaderPQ ls = some (h, r) ↔
        ((h, r) ∈ headers_map ∧ startsW h ls = true)) ∧
      (∀ ls : Line, (∀ p ∈ headers_map, startsW p.1 ls = false) →
        findHeaderPQ ls = none) := by
  refine ⟨?_, ?_, ?_, ?_⟩
  · intro ls h r
    constructor
    · intro hf
      exact ⟨findHeader_mem hf, (findHeader_pred hf).1, (findHeader_pred hf).2⟩
    · rintro ⟨hmem, hsw, hlen⟩
      refine find?_eq_of_unique _ (h, r) headers_map hmem (by simp [hsw, hlen]) ?_
      intro q hq hpq
      simp only [Bool.and_eq_true, decide_eq_true_eq] at hpq
      rcases startsW_comparable ls q.1 h hpq.1 hsw with hc | hc
      · exact headers_key_not_pref q hq (h, r) hmem hc
      · exact (headers_key_not_pref (h, r) hmem q hq hc).symm
  · intro ls hall
    cases hf : findHeader ls with
    | none => rfl
    | some p =>
      have := (findHeader_pred hf).1
      rw [hall p (findHeader_mem hf)] at this
      cases this
  · intro ls h r
    constructor
    · intro hf
      have hmem := List.mem_of_find?_eq_some hf
      have hpred := List.find?_some hf
      simp only [Bool.and_eq_true, Bool.or_eq_true] at hpred
      exact ⟨hmem, hpred.2⟩
    · rintro ⟨hmem, hsw⟩
      refine find?_eq_of_unique _ (h, r) headers_map hmem
        (by simp [hsw, startsW_containsSeg hsw]) ?_
      intro q hq hpq
      simp only [Bool.and_eq_true, Bool.or_eq_true] at hpq
      rcases startsW_comparable ls q.1 h hpq.2 hsw with hc | hc
      · exact headers_key_not_pref q hq (h, r) hmem hc
      · exact (headers_key_not_pref (h, r) hmem q hq hc).symm
  · intro ls hall
    cases hf : findHeaderPQ ls with
    | none => rfl
    | some p =>
      have hpred := List.find?_some hf
      simp only [Bool.and_eq_true] at hpred
      have := hpred.2
      rw [hall p (List.mem_of_find?_eq_some hf)] at this
      cases this

/-- Witness for C4: `"Riddle:"` is recognized by parser2 (label plus a
one-character colon), `"say Error now"` (label name not at line start)
is a label line in neither script, and the long annotated line
`"Error: Expression not returned."` is a label line in parse_questions
but not in parser2. -/
theorem C4_label_rule_w :
    findHeader (s2l "Riddle:") = some (s2l "Riddle", s2l "riddle") ∧
      findHeader (s2l "say Error now") = none ∧
      findHeaderPQ (s2l "Error: Expression not returned.") =
        some (s2l "Error", s2l "description") ∧
      findHeaderPQ (s2l "say Error now") = none :=
  ⟨(C4_label_rule.1 (s2l "Riddle:") (s2l "Riddle") (s2l "riddle")).mpr
      ⟨by decide, by decide, by decide⟩,
    C4_label_rule.2.1 (s2l "say Error now") (by decide),
    (C4_label_rule.2.2.1 (s2l "Error: Expression not returned.")
      (s2l "Error") (s2l "description")).mpr ⟨by decide, by decide⟩,
    C4_label_rule.2.2.2 (s2l "say Error now") (by decide)⟩

/-- C6: when a recognized label line is immediately followed by the next
recognized label line, the resulting mapping contains the first label's
role with the empty string as its value rather than omitting the role. -/
theorem C6_empty_field (pre post : List Line) (ℓ ℓ₂ h r : Line) (p₂ : Line × Line)
    (hm : findHeader (pyStrip ℓ) = some (h, r))
    (hm2 : findHeader (pyStrip ℓ₂) = some p₂)
    (hne : p₂ ≠ (h, r))
    (hnolater : ∀ l ∈ post, findHeader (pyStrip l) ≠ some (h, r)) :
    runBody (pre ++ ℓ :: ℓ₂ :: post) r = some [] := by
  have := runBody_segment pre [] (ℓ₂ :: post) ℓ h r hm (by simp)
    (Or.inr ⟨ℓ₂, post, p₂, rfl, hm2⟩)
    (by
      intro l hl
      rcases List.mem_cons.mp hl with rfl | hl2
      · rw [hm2]; intro hc; exact hne (Option.some_inj.mp hc)
      · exact hnolater l hl2)
  simpa using this

/-- Witness for C6: a Riddle label immediately followed by the Answer
label yields an empty riddle field, not a missing one. -/
theorem C6_empty_field_w :
    runBody [s2l "Riddle", s2l "Answer", s2l "42"] (s2l "riddle") = some [] :=
  C6_empty_field [] [s2l "42"] (s2l "Riddle") (s2l "Answer") (s2l "Riddle")
    (s2l "riddle") (s2l "Answer", s2l "answer") (by decide) (by decide)
    (by decide) (by decide)

/-! ## Zero-boundary behavior (src/parse_questions.py lines 17-24,
src/parser2.py lines 36-44, src/generate_puzzles.py lines 58-65) -/

/-- The boundary matches of src/parse_questions.py (multiline regex over
the document, one candidate per line). -/
def pq_matches (content : Line) : List Line := (splitNL content).filter qMatchLine

/-- Observable behavior of the src/parse_questions.py run on a given
document: the diagnostic messages printed on the zero-boundary path and
whether generated output is emitted (src/parse_questions.py lines
19-24: on zero matches it prints a message, a caption, and the first
500 characters of the document, then returns without output). -/
def parse_questions_run (content : Line) : List Line × Bool :=
  if pq_matches content = [] then
    ([s2l "No matches found for question pattern.", s2l "First 500 chars:",
      content.take 500], false)
  else ([], true)

/-- Observable behavior of the src/parser2.py run: the messages printed
before the zero-boundary check (lines 1, 5, 14, 41) and whether the
generation phase is reached (line 43-44: `exit(0)` on zero
boundaries). -/
def parser2_run (lines : List Line) : List Line × Bool :=
  let msgs := [s2l "SCRIPT STARTED",
    s2l "Reading /Users/student/Downloads/debugg lb copy.swiftpm/questions_raw.txt",
    s2l "Read " ++ natLine lines.length ++ s2l " lines",
    s2l "Found " ++ natLine (q_starts lines).length ++ s2l " questions"]
  if q_starts lines = [] then (msgs, false) else (msgs, true)

/-- The character class `[0-9️⃣🔟]` of the puzzle start pattern
(src/generate_puzzles.py line 58): ASCII digits, the variation selector
and combining keycap of the digit emojis, and the keycap-ten emoji. -/
def puzzleClassChar (c : Char) : Bool :=
  c.isDigit || c = '️' || c = '⃣' || c = '🔟'

/-- Does the puzzle start pattern
`(?:[0-9️⃣🔟]+)[^\n]*\n+Question:` match at the head of `l`? -/
def pzStartAt : Line → Bool
  | [] => false
  | c :: rest =>
    puzzleClassChar c &&
      (let b := rest.dropWhile (fun x => x != '\n')
       !b.isEmpty && startsW (s2l "Question:") (b.dropWhile (fun x => x == '\n')))

/-- All positions of the document where the puzzle start pattern
matches (src/generate_puzzles.py line 61; used here only through its
emptiness). -/
def pz_start_positions (content : Line) : List Nat :=
  (List.range content.length).filter (fun i => pzStartAt (content.drop i))

/-- Observable behavior of the src/generate_puzzles.py run: the message
printed on the zero-boundary path (lines 63-65) and whether output
generation is reached. -/
def gen_puzzles_run (content : Line) : List Line × Bool :=
  if pz_start_positions content = [] then
    ([s2l "No start patterns found!"], false)
  else
    ([s2l "Found " ++ natLine (pz_start_positions content).length ++
        s2l " puzzle blocks."], true)

/-- The run reports an excerpt of the document start: some printed
message contains some nonempty prefix of the document as a contiguous
segment. -/
def reportsExcerpt (msgs : List Line) (doc : Line) : Prop :=
  ∃ m ∈ msgs, ∃ k, 1 ≤ k ∧ containsSeg (doc.take k) m = true

theorem startsW_refl : ∀ x : Line, startsW x x = true := by
  intro x
  induction x with
  | nil => rfl
  | cons a t ih => simp [startsW, ih]

theorem containsSeg_self (x : Line) : containsSeg x x = true := by
  cases x with
  | nil => rfl
  | cons c t => simp [containsSeg, startsW_refl]

theorem startsW_take : ∀ (p s : Line) (j : Nat),
    startsW p s = true → startsW (p.take j) s = true := by
  intro p
  induction p with
  | nil => intro s j _; simp [List.take_nil, startsW]
  | cons a ps ih =>
    intro s j hp
    cases s with
    | nil => simp [startsW] at hp
    | cons b ss =>
      simp only [startsW, Bool.and_eq_true, decide_eq_true_eq] at hp
      cases j with
      | zero => simp [startsW]
      | succ j' => simp [List.take, startsW, hp.1, ih ss j' hp.2]

theorem containsSeg_take : ∀ (h n : Line) (j : Nat),
    containsSeg n h = true → containsSeg (n.take j) h = true := by
  intro h
  induction h with
  | nil =>
    intro n j hc
    simp only [containsSeg] at hc ⊢
    cases n with
    | nil => simpa using hc
    | cons a t => simp [startsW] at hc
  | cons c t ih =>
    intro n j hc
    simp only [containsSeg, Bool.or_eq_true] at hc ⊢
    rcases hc with hc | hc
    · exact Or.inl (startsW_take n (c :: t) j hc)
    · exact Or.inr (ih n j hc)

/-- C7 counterexample: on the non-empty single-line document
`"hello world"` with zero boundaries, src/parser2.py exits without
output, but none of its printed diagnostics contains any nonempty
prefix of the document — there is no diagnostic excerpt of the document
start, contrary to the claim. -/
theorem C7_no_boundaries_cex :
    (parser2_run [s2l "hello world\n"]).2 = false ∧
      ¬ reportsExcerpt (parser2_run [s2l "hello world\n"]).1
        (s2l "hello world\n") := by
  refine ⟨by decide, ?_⟩
  rintro ⟨m, hm, k, hk, hc⟩
  have h1 : containsSeg (((s2l "hello world\n").take k).take 1) m = true :=
    containsSeg_take m _ 1 hc
  rw [List.take_take, Nat.min_eq_left hk] at h1
  have hall : ∀ x ∈ (parser2_run [s2l "hello world\n"]).1,
      containsSeg ((s2l "hello world\n").take 1) x = false := by decide
  rw [hall m hm] at h1
  cases h1

/-- C7 (amended): when zero record boundaries are detected, each script
exits without producing output; src/parse_questions.py additionally
reports a diagnostic excerpt of the document start (its first 500
characters), while src/parser2.py and src/generate_puzzles.py report
only a count or a fixed message without an excerpt. -/
theorem C7_no_boundaries (content : Line) (lines : List Line) :
    (pq_matches content = [] →
      parse_questions_run content =
        ([s2l "No matches found for question pattern.", s2l "First 500 chars:",
          content.take 500], false) ∧
      (content ≠ [] → reportsExcerpt (parse_questions_run content).1 content)) ∧
    (q_starts lines = [] → (parser2_run lines).2 = false) ∧
    (pz_start_positions content = [] → (gen_puzzles_run content).2 = false) := by
  refine ⟨?_, ?_, ?_⟩
  · intro hempty
    have hrun : parse_questions_run content =
        ([s2l "No matches found for question pattern.", s2l "First 500 chars:",
          content.take 500], false) := by
      simp [parse_questions_run, hempty]
    refine ⟨hrun, ?_⟩
    intro hne
    refine ⟨content.take 500, by simp [hrun], min 500 content.length, ?_, ?_⟩
    · refine Nat.le_min.mpr ⟨by norm_num, ?_⟩
      exact Nat.succ_le_of_lt (List.length_pos.mpr hne)
    · have heq : content.take (min 500 content.length) = content.take 500 := by
        rcases Nat.le_total content.length 500 with hle | hle
        · rw [Nat.min_eq_right hle, List.take_length,
            List.take_of_length_le hle]
        · rw [Nat.min_eq_left hle]
      rw [heq]
      exact containsSeg_self (content.take 500)
  · intro hq
    simp [parser2_run, hq]
  · intro hp
    simp [gen_puzzles_run, hp]

/-- Witness for C7 on the boundary-free document `"abc"`. -/
theorem C7_no_boundaries_w :
    (parse_questions_run (s2l "abc\n")).2 = false ∧
      (parser2_run [s2l "abc\n"]).2 = false ∧
      (gen_puzzles_run (s2l "abc\n")).2 = false :=
  ⟨by rw [((C7_no_boundaries (s2l "abc\n") [s2l "abc\n"]).1 (by decide)).1],
    (C7_no_boundaries (s2l "abc\n") [s2l "abc\n"]).2.1 (by decide),
    (C7_no_boundaries (s2l "abc\n") [s2l "abc\n"]).2.2 (by decide)⟩

/-! ## Per-record failure handling (src/generate_questions_l2.py lines
777-812 and src/generate_puzzles.py lines 78-150) -/

/-- Python list indexing `xs[i]` with negative-index support; raises
IndexError when out of range. -/
def pyIndex (xs : List Line) (i : Int) : Except String Line :=
  let j : Int := if i < 0 then i + xs.length else i
  if 0 ≤ j then
    match xs[j.toNat]? with
    | some x => Except.ok x
    | none => Except.error "IndexError: list index out of range"
  else Except.error "IndexError: list index out of range"

/-- Effective index of a Python slice bound. -/
def pyClamp (x : Int) (n : Nat) : Nat :=
  if x < 0 then (x + n).toNat else min x.toNat n

/-- Python slice `xs[a:b]` with negative-bound support. -/
def pySlice (xs : List Line) (a b : Int) : List Line :=
  (xs.take (pyClamp b xs.length)).drop (pyClamp a xs.length)

/-- Python `l.split(':', 1)`: split at the first colon only. -/
def pySplitColon1 (l : Line) : List Line :=
  let pre := l.takeWhile (fun c => c != ':')
  if pre.length = l.length then [l] else [pre, l.drop (pre.length + 1)]

/-- Python `parts[1]` on the result of a split: IndexError when the
split produced fewer than two parts. -/
def elem1 (parts : List Line) : Except String Line :=
  match parts with
  | _ :: b :: _ => Except.ok b
  | _ => Except.error "IndexError: list index out of range"

/-- The five section indices scanned by the unit loop of
src/generate_questions_l2.py lines 785-795 (each initialized to -1,
last occurrence wins). -/
structure L2Idx where
  broken : Int
  err : Int
  correct : Int
  riddle : Int
  answer : Int

/-- The if/elif scan over the enumerated lines. -/
def l2ScanAux : Int → L2Idx → List Line → L2Idx
  | _, st, [] => st
  | idx, st, l :: ls =>
    let st' :=
      if startsW (s2l "Broken Code") l then { st with broken := idx }
      else if startsW (s2l "Error:") l || startsW (s2l "Issue:") l then { st with err := idx }
      else if startsW (s2l "Correct Code") l then { st with correct := idx }
      else if startsW (s2l "Riddle:") l then { st with riddle := idx }
      else if startsW (s2l "Answer:") l then { st with answer := idx }
      else st
    l2ScanAux (idx + 1) st' ls

/-- Section index scan of one unit. -/
def l2Scan (lines : List Line) : L2Idx := l2ScanAux 0 ⟨-1, -1, -1, -1, -1⟩ lines

/-- One extracted record of src/generate_questions_l2.py. -/
structure L2Q where
  title : Line
  broken : Line
  error : Line
  correct : Line
  riddle : Line
  answer : Line
deriving DecidableEq

/-- Field extraction of one unit, src/generate_questions_l2.py lines
782-801, in source evaluation order; `Except.error` models an uncaught
Python exception. -/
def extractUnit (unit : Line) : Except String L2Q := do
  let lines := splitNL (pyStrip unit)
  let t0 ← pyIndex lines 0
  let st := l2Scan lines
  let broken := pyStrip (joinNL (pySlice lines (st.broken + 1) st.err))
  let eline ← pyIndex lines st.err
  let e1 ← elem1 (pySplitColon1 eline)
  let correct := pyStrip (joinNL (pySlice lines (st.correct + 1) st.riddle))
  let rline ← pyIndex lines st.riddle
  let r1 ← elem1 (pySplitColon1 rline)
  let aline ← pyIndex lines st.answer
  let a1 ← elem1 (pySplitColon1 aline)
  Except.ok ⟨pyStrip t0, broken, pyStrip e1, correct, pyStrip r1, pyStrip a1⟩

/-- The unit loop of src/generate_questions_l2.py lines 777-812: no
try/except surrounds it, so the first failing unit aborts the run and
no later unit is processed. -/
def l2_run : List Line → Except String (List L2Q)
  | [] => Except.ok []
  | u :: us =>
    match extractUnit u with
    | Except.error e => Except.error e
    | Except.ok r =>
      match l2_run us with
      | Except.error e => Except.error e
      | Except.ok rs => Except.ok (r :: rs)

/-- Did extraction of a unit succeed? -/
def exOk (r : Except String L2Q) : Bool :=
  match r with
  | Except.ok _ => true
  | Except.error _ => false

/-- The successful chunk of a block outcome. -/
def okOf (r : Except String Line) : Option Line :=
  match r with
  | Except.ok c => some c
  | Except.error _ => none

/-- The diagnostic printed by the except-handler of
src/generate_puzzles.py line 150 for block ordinal `i`. -/
def pzDiag (i : Nat) (e : String) : Line :=
  s2l "Error parsing block " ++ natLine i ++ s2l ": " ++ s2l e

/-- The diagnostic produced by a block outcome, if it failed. -/
def errOf (i : Nat) (r : Except String Line) : Option Line :=
  match r with
  | Except.ok _ => none
  | Except.error e => some (pzDiag i e)

/-- The block loop of src/generate_puzzles.py lines 78-150: each block's
try-body outcome either appends its chunk to the output or is caught and
reported with the block ordinal, and the loop always continues. -/
def pz_loop : Nat → List (Except String Line) → Line × List Line
  | _, [] => ([], [])
  | i, Except.ok chunk :: rest =>
    (chunk ++ (pz_loop (i + 1) rest).1, (pz_loop (i + 1) rest).2)
  | i, Except.error e :: rest =>
    ((pz_loop (i + 1) rest).1, pzDiag i e :: (pz_loop (i + 1) rest).2)

theorem l2_run_abort : ∀ (pre : List Line) (u : Line) (post : List Line) (e : String),
    (∀ p ∈ pre, exOk (extractUnit p) = true) → extractUnit u = Except.error e →
    l2_run (pre ++ u :: post) = Except.error e := by
  intro pre
  induction pre with
  | nil => intro u post e _ hu; simp [l2_run, hu]
  | cons p pre ih =>
    intro u post e hok hu
    have hp := hok p (by simp)
    cases hep : extractUnit p with
    | error e2 => rw [hep] at hp; simp [exOk] at hp
    | ok r =>
      have hrest := ih u post e (fun q hq => hok q (by simp [hq])) hu
      simp [l2_run, hep, hrest]

theorem pz_loop_eq (rs : List (Except String Line)) : ∀ i : Nat,
    pz_loop i rs =
      ((rs.filterMap okOf).flatten,
        (rs.enumFrom i).filterMap (fun p => errOf p.1 p.2)) := by
  induction rs with
  | nil => intro i; rfl
  | cons r rest ih =>
    intro i
    cases r with
    | ok c =>
      simp [pz_loop, okOf, errOf, List.filterMap_cons, ih (i + 1), List.enumFrom]
    | error e =>
      simp [pz_loop, okOf, errOf, List.filterMap_cons, ih (i + 1), List.enumFrom]

/-- C8 counterexample: in the unit loop of src/generate_questions_l2.py
the malformed unit `"x"` fails extraction (IndexError) and the whole run
aborts, even though the following unit is well formed (its own
extraction succeeds); the claim says the bad record is skipped and
processing continues. -/
theorem C8_record_recovery_cex :
    l2_run [s2l "x",
        s2l "T\nBroken Code\na\nError: boom\nCorrect Code\nb\nRiddle: r\nAnswer: z"] =
      Except.error "IndexError: list index out of range" ∧
      exOk (extractUnit
        (s2l "T\nBroken Code\na\nError: boom\nCorrect Code\nb\nRiddle: r\nAnswer: z")) =
        true := by
  exact ⟨rfl, rfl⟩

/-- C8 (amended): in src/generate_puzzles.py the block loop recovers
locally — every successful block contributes its output and every
failing block yields one diagnostic naming its ordinal, with processing
always continuing; in src/generate_questions_l2.py there is no such
recovery: the first unit whose field extraction fails aborts the run
with its error, and the units after it are never processed. -/
theorem C8_record_recovery :
    (∀ (pre : List Line) (u : Line) (post : List Line) (e : String),
        (∀ p ∈ pre, exOk (extractUnit p) = true) →
        extractUnit u = Except.error e →
        l2_run (pre ++ u :: post) = Except.error e) ∧
      (∀ (i : Nat) (rs : List (Except String Line)),
        pz_loop i rs =
          ((rs.filterMap okOf).flatten,
            (rs.enumFrom i).filterMap (fun p => errOf p.1 p.2))) :=
  ⟨l2_run_abort, fun i rs => pz_loop_eq rs i⟩

/-- Witness for C8: a good unit followed by the bad unit `"x"` aborts
the whole run with the IndexError of the bad unit. -/
theorem C8_record_recovery_w :
    l2_run [s2l "T\nBroken Code\na\nError: boom\nCorrect Code\nb\nRiddle: r\nAnswer: z",
        s2l "x"] =
      Except.error "IndexError: list index out of range" :=
  C8_record_recovery.1
    [s2l "T\nBroken Code\na\nError: boom\nCorrect Code\nb\nRiddle: r\nAnswer: z"]
    (s2l "x") [] "IndexError: list index out of range" (by decide) (by rfl)

/-! ## Missing optional sections (src/parser2.py lines 62-95 and
src/generate_questions_l2.py lines 782-801) -/

theorem takeWhile_all {p : Char → Bool} :
    ∀ l : Line, (∀ c ∈ l, p c = true) → l.takeWhile p = l := by
  intro l
  induction l with
  | nil => intro _; rfl
  | cons a t ih =>
    intro h
    simp [List.takeWhile, h a (by simp), ih fun x hx => h x (by simp [hx])]

/-- C5 counterexample: in src/generate_questions_l2.py a unit missing
the optional `Error:` section does not yield a mapping without that
role: the section index stays -1, so `lines[-1]` reads the unit's LAST
line and the description role is populated with `"z"` taken from the
`Answer: z` line (the broken-code slice is also polluted); and when the
unit's last line has no colon, the same missing section makes
extraction fail with an IndexError instead of succeeding. -/
theorem C5_missing_optional_cex :
    extractUnit (s2l "T\nBroken Code\na\nCorrect Code\nb\nRiddle: r\nAnswer: z") =
      Except.ok ⟨s2l "T", s2l "a\nCorrect Code\nb\nRiddle: r", s2l "z",
        s2l "b", s2l "r", s2l "z"⟩ ∧
      extractUnit (s2l "T\nBroken Code\na\nCorrect Code\nb") =
        Except.error "IndexError: list index out of range" := by
  exact ⟨rfl, rfl⟩

/-- C5 (amended): in src/parser2.py a record span lacking an optional
label yields a mapping with no entry for that label's role, and
extraction never fails.  In src/generate_questions_l2.py the absence of
an optional section is not tolerated: the missing section's index stays
-1, and indexing with -1 reads the unit's LAST line, so the role is
populated with text derived from that line when it contains a colon,
and extraction raises an IndexError when it does not. -/
theorem C5_missing_optional :
    (∀ (body : List Line) (h r : Line), (h, r) ∈ headers_map →
        (∀ l ∈ body, findHeader (pyStrip l) ≠ some (h, r)) →
        runBody body r = none) ∧
      (∀ (lines : List Line) (hne : lines ≠ []),
        pyIndex lines (-1) = Except.ok (lines.getLast hne)) ∧
      (∀ l : Line, (∀ c ∈ l, (c == ':') = false) →
        elem1 (pySplitColon1 l) =
          Except.error "IndexError: list index out of range") := by
  refine ⟨?_, ?_, ?_⟩
  · intro body h r hmem habs
    exact runFrom_preserves body (fun _ => none) none [] r
      (fun l hl p hf => matched_role_ne hf hmem (habs l hl))
      (fun q hq => by cases hq)
  · intro lines hne
    have hlen : 0 < lines.length := List.length_pos.mpr hne
    have h0 : (0 : Int) ≤ -1 + lines.length := by omega
    have ht : ((-1 : Int) + lines.length).toNat = lines.length - 1 := by omega
    simp only [pyIndex]
    rw [if_pos (by norm_num : (-1 : Int) < 0), if_pos h0, ht,
      ← List.getLast?_eq_getElem?, List.getLast?_eq_getLast lines hne]
  · intro l hnc
    have ht : l.takeWhile (fun c => c != ':') = l :=
      takeWhile_all l fun c hc => by simp [bne, hnc c hc]
    simp [pySplitColon1, ht, elem1]

/-- Witness for C5: a parser2 body with only a Broken Code section has
no `description` entry; the l2 negative index -1 reads the last line;
and a colon-free line makes the l2 `split(':', 1)[1]` fail. -/
theorem C5_missing_optional_w :
    runBody [s2l "Broken Code", s2l "x = 1"] (s2l "description") = none ∧
      pyIndex [s2l "a", s2l "b"] (-1) = Except.ok (s2l "b") ∧
      elem1 (pySplitColon1 (s2l "xy")) =
        Except.error "IndexError: list index out of range" :=
  ⟨C5_missing_optional.1 [s2l "Broken Code", s2l "x = 1"] (s2l "Error")
      (s2l "description") (by decide) (by decide),
    C5_missing_optional.2.1 [s2l "a", s2l "b"] (by decide),
    C5_missing_optional.2.2 (s2l "xy") (by decide)⟩

/-! ## Title derivation (src/parser2.py lines 50-59 and
src/generate_questions_c_l3.py lines 730-731) -/

/-- The character scan of src/parser2.py lines 54-58: the index of the
first alphabetic character at a position strictly greater than `k`
(the length of the first space-separated token), else 0. -/
def titleStartAux : List Char → Nat → Nat → Nat
  | [], _, _ => 0
  | c :: rest, i, k =>
    if decide (k < i) && c.isAlpha then i else titleStartAux rest (i + 1) k

/-- Title derivation of src/parser2.py lines 50-59: strip the boundary
line, take `q_id` as the text before the first space, scan for the
first alphabetic character strictly past `len(q_id)`, and return the
suffix from there, or the placeholder `"Unknown"` when the scan found
nothing. -/
def q_title_suffix (raw : Line) : Line :=
  if titleStartAux (pyStrip raw) 0
      ((pyStrip raw).takeWhile (fun c => c != ' ')).length > 0 then
    (pyStrip raw).drop
      (titleStartAux (pyStrip raw) 0
        ((pyStrip raw).takeWhile (fun c => c != ' ')).length)
  else s2l "Unknown"

/-- Search for the first occurrence of the literal `pat` and return the
text after it (the behavior of re.search for a literal pattern). -/
def findAfter (pat : Line) : Line → Option Line
  | [] => if startsW pat [] then some [] else none
  | c :: t =>
    if startsW pat (c :: t) then some ((c :: t).drop pat.length)
    else findAfter pat t

/-- Title derivation of src/generate_questions_c_l3.py lines 730-731:
the text captured by the first `em-dash space (.*)` match (to end of
line), else the numbered fallback title. -/
def cl3_title (block : Line) (i : Nat) : Line :=
  match findAfter (s2l "— ") block with
  | some rest => rest.takeWhile (fun c => c != '\n')
  | none => s2l "Level 3 – Question " ++ natLine i

theorem takeWhile_append_cons (p : Char → Bool) (l1 : List Char) (c : Char)
    (l2 : List Char) (h1 : ∀ x ∈ l1, p x = true) (hc : p c = false) :
    (l1 ++ c :: l2).takeWhile p = l1 := by
  induction l1 with
  | nil => simp [List.takeWhile, hc]
  | cons a t ih =>
    have hpa := h1 a (by simp)
    have ih2 := ih fun x hx => h1 x (by simp [hx])
    simp [List.takeWhile, hpa, ih2, List.append_eq]

theorem titleStartAux_low (pre : List Char) :
    ∀ (rest : List Char) (i k : Nat), i + pre.length ≤ k + 1 →
      titleStartAux (pre ++ rest) i k = titleStartAux rest (i + pre.length) k := by
  induction pre with
  | nil => intro rest i k _; simp [titleStartAux]
  | cons c pre ih =>
    intro rest i k hle
    simp only [List.length_cons] at hle
    have hki : ¬ k < i := by omega
    have ih2 := ih rest (i + 1) k (by omega)
    simp only [List.cons_append, titleStartAux, List.append_eq]
    rw [if_neg (by simp [hki]), ih2]
    congr 1
    simp only [List.length_cons]
    omega

theorem titleStartAux_nonalpha (pre : List Char) :
    ∀ (rest : List Char) (i k : Nat), (∀ c ∈ pre, c.isAlpha = false) →
      titleStartAux (pre ++ rest) i k = titleStartAux rest (i + pre.length) k := by
  induction pre with
  | nil => intro rest i k _; simp [titleStartAux]
  | cons c pre ih =>
    intro rest i k hna
    have ih2 := ih rest (i + 1) k fun x hx => hna x (by simp [hx])
    simp only [List.cons_append, titleStartAux, List.append_eq]
    rw [if_neg (by simp [hna c (by simp)]), ih2]
    congr 1
    simp only [List.length_cons]
    omega

theorem titleStartAux_none (l : List Char) :
    ∀ (i k : Nat), (∀ c ∈ l, c.isAlpha = false) → titleStartAux l i k = 0 := by
  induction l with
  | nil => intro i k _; rfl
  | cons c t ih =>
    intro i k hna
    simp only [titleStartAux, hna c (by simp), Bool.and_false, if_false]
    exact ih (i + 1) k fun x hx => hna x (by simp [hx])

/-- C9 counterexample: for the boundary line `"Q1 em-dash 2nd"` the
remainder after the ordinal token and the separating em-dash is
`"2nd"`, but the derived title is `"nd"`: the scan starts the title at
the first alphabetic character, chopping the leading digit of the
title text. -/
theorem C9_title_cex :
    q_title_suffix (s2l "Q1 — 2nd\n") = s2l "nd" ∧
      s2l "nd" ≠ s2l "2nd" := by
  exact ⟨rfl, by decide⟩

/-- C9 (amended): the parser2 title is the suffix of the stripped
boundary line from the first alphabetic character strictly past the
first space-separated token (so any non-alphabetic lead-in of the
title text, such as a leading digit, is also skipped); when no such
character exists the deterministic placeholder `"Unknown"` is used, and
generate_questions_c_l3 uses its numbered fallback title when no
em-dash separator is found — never a thrown error. -/
theorem C9_title :
    (∀ (raw : Line) (qid sep suf : List Char) (a : Char),
        pyStrip raw = qid ++ ' ' :: (sep ++ a :: suf) →
        (∀ c ∈ qid, (c != ' ') = true) →
        (∀ c ∈ sep, c.isAlpha = false) →
        a.isAlpha = true →
        q_title_suffix raw = a :: suf) ∧
      (∀ raw : Line,
        (∀ c ∈ (pyStrip raw).drop
            (((pyStrip raw).takeWhile (fun c => c != ' ')).length + 1),
          c.isAlpha = false) →
        q_title_suffix raw = s2l "Unknown") ∧
      (∀ (block : Line) (i : Nat), findAfter (s2l "— ") block = none →
        cl3_title block i = s2l "Level 3 – Question " ++ natLine i) := by
  refine ⟨?_, ?_, ?_⟩
  · intro raw qid sep suf a hsplit hqid hsep ha
    have hk : (pyStrip raw).takeWhile (fun c => c != ' ') = qid := by
      rw [hsplit]
      have e1 : qid ++ ' ' :: (sep ++ a :: suf) = qid ++ ' ' :: (sep ++ a :: suf) := rfl
      exact takeWhile_append_cons _ qid ' ' (sep ++ a :: suf) hqid (by decide)
    have h1 : titleStartAux (pyStrip raw) 0 qid.length =
        qid.length + 1 + sep.length := by
      rw [hsplit]
      have e1 : qid ++ ' ' :: (sep ++ a :: suf) =
          (qid ++ [' ']) ++ (sep ++ a :: suf) := by simp
      rw [e1, titleStartAux_low (qid ++ [' ']) _ 0 qid.length (by simp),
        titleStartAux_nonalpha sep _ _ _ hsep]
      have hki : qid.length < 0 + (qid ++ [' ']).length + sep.length := by
        simp
        omega
      simp [titleStartAux, ha, hki]
      omega
    have hpos : 0 < qid.length + 1 + sep.length := by omega
    rw [q_title_suffix, hk, h1, if_pos hpos, hsplit]
    have e2 : qid ++ ' ' :: (sep ++ a :: suf) =
        (qid ++ ' ' :: sep) ++ a :: suf := by simp
    have e3 : qid.length + 1 + sep.length = (qid ++ ' ' :: sep).length := by
      simp
      omega
    rw [e2, e3, List.drop_left]
  · intro raw hna
    have h0 : titleStartAux (pyStrip raw) 0
        (((pyStrip raw).takeWhile (fun c => c != ' ')).length) = 0 := by
      conv_lhs =>
        rw [← List.take_append_drop
          ((((pyStrip raw).takeWhile (fun c => c != ' ')).length) + 1) (pyStrip raw)]
      rw [titleStartAux_low _ _ 0 _ (by simp)]
      exact titleStartAux_none _ _ _ hna
    rw [q_title_suffix, h0]
    simp
  · intro block i h
    simp [cl3_title, h]

/-- Witness for C9: the boundary line `"Q1 em-dash Foo"` yields the
title `"Foo"`. -/
theorem C9_title_w : q_title_suffix (s2l "Q1 — Foo\n") = s2l "Foo" :=
  C9_title.1 (s2l "Q1 — Foo\n") (s2l "Q1") (s2l "— ") (s2l "oo") 'F'
    (by decide) (by decide) (by decide) (by decide)
